import Mathlib

/-!
Shallow embedding of the motor factory simulation
(`Info_model_plant_with_motors_webapp_v2.py`).

The numeric state is modelled over `ℚ` (Python floats are treated as exact
rationals).  Python's global `random.uniform` draws are modelled as explicit
jitter parameters: for standalone motor runs as streams `Nat → ℚ`, for the
factory run as oracles `String → Nat → ℚ` indexed by motor identity and
cycle.  Python's built-in `hash` on strings is modelled as a parameter
`hash : String → Int` (any fixed hash function for the duration of a run).
-/

/-- `np.clip x lo hi` on scalars: `min (max x lo) hi`. -/
def npClip (x lo hi : ℚ) : ℚ := min (max x lo) hi

/-- Round-half-to-even to an integer, as Python's built-in `round` does. -/
def roundHalfEven (x : ℚ) : ℤ :=
  let fl := Rat.floor x
  let frac := x - (fl : ℚ)
  if frac < 1 / 2 then fl
  else if 1 / 2 < frac then fl + 1
  else if fl % 2 = 0 then fl else fl + 1

/-- Python `round(x, ndigits)`: round-half-even at `ndigits` decimal places. -/
def pyRound (ndigits : Nat) (x : ℚ) : ℚ :=
  (roundHalfEven (x * 10 ^ ndigits) : ℚ) / 10 ^ ndigits

/-- Decimal digit characters of `n`, most significant first; models the
decimal rendering a Python f-string performs on a nonnegative `int`. -/
def natDigits (n : Nat) : List Char :=
  if _h : n < 10 then [Nat.digitChar n]
  else natDigits (n / 10) ++ [Nat.digitChar (n % 10)]
decreasing_by exact Nat.div_lt_self (by omega) (by omega)

/-- Decimal string of a natural number (the `{i}` of a Python f-string). -/
def natStr (n : Nat) : String := ⟨natDigits n⟩

/-!  ## Reference Signal Generator (`get_speed_reference`)

The Python default `cycle_interval=50` is passed explicitly at call sites.
The list indexing `levels[index]` is modelled with `List.getD`; the index
`(cycle / cycle_interval) % 4` is always `< 4`, so the default is never
used (this in-boundedness is part of what the theorems establish). -/

/-- `get_speed_reference(cycle, motor_id, cycle_interval)`. -/
def get_speed_reference (hash : String → Int) (cycle : Nat) (motor_id : String)
    (cycle_interval : Nat) : Nat :=
  let base := (hash motor_id).natAbs % 200 + 1000
  let levels := [base, base + 100, base + 200, base + 300]
  let index := (cycle / cycle_interval) % 4
  levels.getD index 0

/-! ## Motors

The Python class hierarchy `Motor → DCMotor/ACMotor` is flattened: each
concrete motor structure carries the base-class state fields (from
`Motor.__init__`) together with its own controller fields. -/

/-- State of a DC motor: base `Motor` fields plus the PI controller fields
from `DCMotor.__init__`. -/
structure DCMotor where
  motor_id : String
  voltage : ℚ
  current : ℚ
  speed : ℚ
  torque : ℚ
  efficiency : ℚ
  temperature : ℚ
  operating_hours : Nat
  controller_gain : ℚ
  integral_gain : ℚ
  integral_error : ℚ
deriving DecidableEq

/-- `DCMotor(motor_id)` constructor. -/
def DCMotor.init (motor_id : String) : DCMotor :=
  { motor_id := motor_id
    voltage := 0
    current := 0
    speed := 0
    torque := 0
    efficiency := 92.0
    temperature := 25.0
    operating_hours := 0
    controller_gain := 0.5
    integral_gain := 0.01
    integral_error := 0.0 }

/-- `DCMotor.control(target_speed)`: returns the clipped control signal and
the mutated motor (integral accumulator and voltage are written). -/
def DCMotor.control (m : DCMotor) (target_speed : ℚ) : ℚ × DCMotor :=
  let error := target_speed - m.speed
  let integral_error := m.integral_error + error
  let control_signal :=
    npClip (m.controller_gain * error + m.integral_gain * integral_error) 0 1
  (control_signal,
    { m with integral_error := integral_error, voltage := control_signal * 480 })

/-- `DCMotor.update_motor(control_signal)`; the two `random.uniform` draws
(`uniform(-0.05, 0.05)` for temperature, `uniform(0, 0.001)` for efficiency)
are passed in as `tempJitter` and `effJitter`. -/
def DCMotor.update_motor (m : DCMotor) (control_signal tempJitter effJitter : ℚ) :
    DCMotor :=
  let max_voltage : ℚ := 480
  let applied_voltage := control_signal * max_voltage
  let gain : ℚ := 3.125
  let time_constant : ℚ := 10
  { m with
    speed := m.speed + (applied_voltage * gain - m.speed) / time_constant
    current := control_signal * 10
    torque := control_signal * 10 * 0.5
    temperature := m.temperature + (control_signal * 0.1 + tempJitter)
    efficiency := m.efficiency - effJitter
    operating_hours := m.operating_hours + 1 }

/-- State of an AC motor: base `Motor` fields plus the fields from
`ACMotor.__init__`. -/
structure ACMotor where
  motor_id : String
  voltage : ℚ
  current : ℚ
  speed : ℚ
  torque : ℚ
  efficiency : ℚ
  temperature : ℚ
  operating_hours : Nat
  base_frequency : ℚ
  controller_gain : ℚ
  integral_gain : ℚ
  integral_error : ℚ
  frequency : ℚ
deriving DecidableEq

/-- `ACMotor(motor_id)` constructor (`frequency` starts at `base_frequency`). -/
def ACMotor.init (motor_id : String) : ACMotor :=
  { motor_id := motor_id
    voltage := 0
    current := 0
    speed := 0
    torque := 0
    efficiency := 92.0
    temperature := 25.0
    operating_hours := 0
    base_frequency := 50
    controller_gain := 0.02
    integral_gain := 0.005
    integral_error := 0.0
    frequency := 50 }

/-- `ACMotor.control(target_speed)`: returns `new_frequency / 60` and the
mutated motor (integral accumulator and frequency are written). -/
def ACMotor.control (m : ACMotor) (target_speed : ℚ) : ℚ × ACMotor :=
  let error := target_speed - m.speed
  let integral_error := m.integral_error + error
  let new_frequency :=
    npClip (m.base_frequency + m.controller_gain * error
      + m.integral_gain * integral_error) 40 60
  (new_frequency / 60,
    { m with integral_error := integral_error, frequency := new_frequency })

/-- `ACMotor.update_motor(control_signal)`; the drive quantity is the stored
`frequency` (the `control_signal` argument is received but unused, exactly as
in the source). -/
def ACMotor.update_motor (m : ACMotor) (_control_signal tempJitter effJitter : ℚ) :
    ACMotor :=
  let gain_ac : ℚ := 30
  let time_constant : ℚ := 10
  { m with
    speed := m.speed + (m.frequency * gain_ac - m.speed) / time_constant
    current := m.frequency / 60 * 10
    torque := m.frequency / 60 * 10 * 0.5
    temperature := m.temperature + (m.frequency / 60 * 0.1 + tempJitter)
    efficiency := m.efficiency - effJitter
    operating_hours := m.operating_hours + 1 }

/-- The snapshot dictionary returned by `Motor.monitor_status`. -/
structure MotorStatus where
  motor_id : String
  voltage : ℚ
  current : ℚ
  speed : ℚ
  torque : ℚ
  efficiency : ℚ
  temperature : ℚ
  operating_hours : Nat
deriving DecidableEq

/-- `Motor.monitor_status` for a DC motor (rounding as in the source). -/
def DCMotor.monitor_status (m : DCMotor) : MotorStatus :=
  { motor_id := m.motor_id
    voltage := m.voltage
    current := pyRound 5 m.current
    speed := pyRound 10 m.speed
    torque := pyRound 10 m.torque
    efficiency := pyRound 2 m.efficiency
    temperature := pyRound 2 m.temperature
    operating_hours := m.operating_hours }

/-- `Motor.monitor_status` for an AC motor (rounding as in the source). -/
def ACMotor.monitor_status (m : ACMotor) : MotorStatus :=
  { motor_id := m.motor_id
    voltage := m.voltage
    current := pyRound 5 m.current
    speed := pyRound 10 m.speed
    torque := pyRound 10 m.torque
    efficiency := pyRound 2 m.efficiency
    temperature := pyRound 2 m.temperature
    operating_hours := m.operating_hours }

/-! ## Motor logs

`motor_logs` is a Python dict mapping motor identity to a dict of seven
parallel lists; it is modelled as a partial map `String → Option LogEntry`
(the claims do not depend on dict insertion order). -/

/-- The per-motor record `{"cycle": [], "speed": [], ...}`. -/
structure LogEntry where
  cycle : List Nat
  speed : List ℚ
  temperature : List ℚ
  efficiency : List ℚ
  current : List ℚ
  torque : List ℚ
  reference : List Nat
deriving DecidableEq

/-- The freshly inserted entry with seven empty lists. -/
def LogEntry.empty : LogEntry :=
  { cycle := [], speed := [], temperature := [], efficiency := []
    current := [], torque := [], reference := [] }

/-- The `motor_logs` dictionary. -/
def MotorLogs : Type := String → Option LogEntry

instance : CoeFun MotorLogs (fun _ => String → Option LogEntry) := ⟨fun f => f⟩

/-- The initially empty `motor_logs = {}`. -/
def MotorLogs.empty : MotorLogs := fun _ => none

/-- `if motor_id not in motor_logs: motor_logs[motor_id] = {empty lists}`. -/
def MotorLogs.initIfAbsent (logs : MotorLogs) (id : String) : MotorLogs :=
  fun id2 => if id2 = id then some ((logs id).getD LogEntry.empty) else logs id2

/-- `motor_logs[motor_id][field].append(x)`, written as an in-place entry
modification at key `id` (a no-op on an absent key, which never happens
after `initIfAbsent`). -/
def MotorLogs.modifyAtKey (logs : MotorLogs) (id : String) (f : LogEntry → LogEntry) :
    MotorLogs :=
  fun id2 => if id2 = id then (logs id2).map f else logs id2

/-! ## Machine / ProductionLine / Factory -/

/-- `Machine`: one DC and one AC motor. -/
structure Machine where
  machine_id : String
  dc_motor : DCMotor
  ac_motor : ACMotor
  status : String
deriving DecidableEq

/-- `Machine(machine_id)` constructor. -/
def Machine.init (machine_id : String) : Machine :=
  { machine_id := machine_id
    dc_motor := DCMotor.init (machine_id ++ "_DC")
    ac_motor := ACMotor.init (machine_id ++ "_AC")
    status := "Running" }

/-- `Machine.update_machines(cycle, motor_logs)`: control and update both
motors (DC first, then AC) and append a snapshot of each to the shared log.
In-place mutation is modelled by returning the new machine and log. -/
def Machine.update_machines (hash : String → Int) (tj ej : String → Nat → ℚ)
    (m : Machine) (cycle : Nat) (motor_logs : MotorLogs) : Machine × MotorLogs :=
  let target_speed_dc := get_speed_reference hash cycle m.dc_motor.motor_id 50
  let target_speed_ac := get_speed_reference hash cycle m.ac_motor.motor_id 50
  let pdc := m.dc_motor.control (target_speed_dc : ℚ)
  let dc2 := pdc.2.update_motor pdc.1
    (tj m.dc_motor.motor_id cycle) (ej m.dc_motor.motor_id cycle)
  let status_dc := dc2.monitor_status
  let logs1 := motor_logs.initIfAbsent dc2.motor_id
  let logs2 := logs1.modifyAtKey dc2.motor_id
    (fun e => { e with cycle := e.cycle ++ [cycle] })
  let logs3 := logs2.modifyAtKey dc2.motor_id
    (fun e => { e with speed := e.speed ++ [status_dc.speed] })
  let logs4 := logs3.modifyAtKey dc2.motor_id
    (fun e => { e with temperature := e.temperature ++ [status_dc.temperature] })
  let logs5 := logs4.modifyAtKey dc2.motor_id
    (fun e => { e with efficiency := e.efficiency ++ [status_dc.efficiency] })
  let logs6 := logs5.modifyAtKey dc2.motor_id
    (fun e => { e with current := e.current ++ [status_dc.current] })
  let logs7 := logs6.modifyAtKey dc2.motor_id
    (fun e => { e with torque := e.torque ++ [status_dc.torque] })
  let logs8 := logs7.modifyAtKey dc2.motor_id
    (fun e => { e with reference := e.reference ++ [target_speed_dc] })
  let pac := m.ac_motor.control (target_speed_ac : ℚ)
  let ac2 := pac.2.update_motor pac.1
    (tj m.ac_motor.motor_id cycle) (ej m.ac_motor.motor_id cycle)
  let status_ac := ac2.monitor_status
  let logs9 := logs8.initIfAbsent ac2.motor_id
  let logs10 := logs9.modifyAtKey ac2.motor_id
    (fun e => { e with cycle := e.cycle ++ [cycle] })
  let logs11 := logs10.modifyAtKey ac2.motor_id
    (fun e => { e with speed := e.speed ++ [status_ac.speed] })
  let logs12 := logs11.modifyAtKey ac2.motor_id
    (fun e => { e with temperature := e.temperature ++ [status_ac.temperature] })
  let logs13 := logs12.modifyAtKey ac2.motor_id
    (fun e => { e with efficiency := e.efficiency ++ [status_ac.efficiency] })
  let logs14 := logs13.modifyAtKey ac2.motor_id
    (fun e => { e with current := e.current ++ [status_ac.current] })
  let logs15 := logs14.modifyAtKey ac2.motor_id
    (fun e => { e with torque := e.torque ++ [status_ac.torque] })
  let logs16 := logs15.modifyAtKey ac2.motor_id
    (fun e => { e with reference := e.reference ++ [target_speed_ac] })
  ({ m with dc_motor := dc2, ac_motor := ac2 }, logs16)

/-- Sequential in-place update of a list of machines against the shared log
(the `for machine in self.machines` loop body). -/
def updateMachineList (hash : String → Int) (tj ej : String → Nat → ℚ)
    (cycle : Nat) : List Machine → MotorLogs → List Machine × MotorLogs
  | [], logs => ([], logs)
  | m :: ms, logs =>
    let p := m.update_machines hash tj ej cycle logs
    let q := updateMachineList hash tj ej cycle ms p.2
    (p.1 :: q.1, q.2)

/-- `ProductionLine`: an ordered list of machines. -/
structure ProductionLine where
  line_id : String
  machines : List Machine
deriving DecidableEq

/-- `ProductionLine(line_id, num_machines)` constructor; `range(n)` on a
Python int is empty for `n ≤ 0`, hence `Int.toNat`. -/
def ProductionLine.init (line_id : String) (num_machines : Int) : ProductionLine :=
  { line_id := line_id
    machines := (List.range num_machines.toNat).map
      (fun i => Machine.init (line_id ++ "_M" ++ natStr i)) }

/-- `ProductionLine.update_production_line(cycle, motor_logs)`. -/
def ProductionLine.update_production_line (hash : String → Int)
    (tj ej : String → Nat → ℚ) (pl : ProductionLine) (cycle : Nat)
    (logs : MotorLogs) : ProductionLine × MotorLogs :=
  let p := updateMachineList hash tj ej cycle pl.machines logs
  ({ pl with machines := p.1 }, p.2)

/-- Sequential update of a list of production lines (the
`for line in factory.production_lines` driver loop body). -/
def updateLineList (hash : String → Int) (tj ej : String → Nat → ℚ)
    (cycle : Nat) : List ProductionLine → MotorLogs → List ProductionLine × MotorLogs
  | [], logs => ([], logs)
  | pl :: pls, logs =>
    let p := pl.update_production_line hash tj ej cycle logs
    let q := updateLineList hash tj ej cycle pls p.2
    (p.1 :: q.1, q.2)

/-- `Factory`: an ordered list of production lines. -/
structure Factory where
  factory_name : String
  production_lines : List ProductionLine
deriving DecidableEq

/-- `Factory(factory_name, num_lines, machines_per_line)` constructor. -/
def Factory.init (factory_name : String) (num_lines machines_per_line : Int) :
    Factory :=
  { factory_name := factory_name
    production_lines := (List.range num_lines.toNat).map
      (fun i => ProductionLine.init ("Line_" ++ natStr (i + 1)) machines_per_line) }

/-- One full simulation cycle: every production line is stepped in order. -/
def Factory.step (hash : String → Int) (tj ej : String → Nat → ℚ)
    (f : Factory) (cycle : Nat) (logs : MotorLogs) : Factory × MotorLogs :=
  let p := updateLineList hash tj ej cycle f.production_lines logs
  ({ f with production_lines := p.1 }, p.2)

/-- The driver loop `for cycle in range(1, n + 1)` starting from factory `f`
and log `logs`: cycles are numbered `1, 2, ..., n`. -/
def Factory.run (hash : String → Int) (tj ej : String → Nat → ℚ)
    (f : Factory) (logs : MotorLogs) : Nat → Factory × MotorLogs
  | 0 => (f, logs)
  | n + 1 =>
    let p := Factory.run hash tj ej f logs n
    Factory.step hash tj ej p.1 (n + 1) p.2

/-- The whole-app run with a Python-int total cycle count
(`range(1, total + 1)` is empty for `total ≤ 0`). -/
def Factory.runTotal (hash : String → Int) (tj ej : String → Nat → ℚ)
    (f : Factory) (total_cycles : Int) : Factory × MotorLogs :=
  Factory.run hash tj ej f MotorLogs.empty total_cycles.toNat

/-! ## Standalone motor runs (for per-motor claims)

For claims about a single motor the jitter draws are streams indexed by
step number. -/

/-- Iterated plant updates of a DC motor under signal and jitter streams. -/
def DCMotor.updateRun (m : DCMotor) (sig tj ej : Nat → ℚ) : Nat → DCMotor
  | 0 => m
  | n + 1 => (DCMotor.updateRun m sig tj ej n).update_motor (sig n) (tj n) (ej n)

/-- Iterated plant updates of an AC motor under signal and jitter streams. -/
def ACMotor.updateRun (m : ACMotor) (sig tj ej : Nat → ℚ) : Nat → ACMotor
  | 0 => m
  | n + 1 => (ACMotor.updateRun m sig tj ej n).update_motor (sig n) (tj n) (ej n)

/-- Iterated control-then-update cycles of a DC motor: each step runs the PI
controller on the current target and feeds its signal to the plant update. -/
def DCMotor.cycleRun (m : DCMotor) (targets tj ej : Nat → ℚ) : Nat → DCMotor
  | 0 => m
  | n + 1 =>
    let prev := DCMotor.cycleRun m targets tj ej n
    let p := prev.control (targets n)
    p.2.update_motor p.1 (tj n) (ej n)

/-! ## Identity lists and log-shape predicates -/

/-- The two motor identities owned by a machine, DC first. -/
def Machine.motorIds (m : Machine) : List String :=
  [m.dc_motor.motor_id, m.ac_motor.motor_id]

/-- All motor identities of a production line, in update order. -/
def ProductionLine.motorIds (pl : ProductionLine) : List String :=
  pl.machines.flatMap Machine.motorIds

/-- All motor identities of a factory, in update order. -/
def Factory.motorIds (f : Factory) : List String :=
  f.production_lines.flatMap ProductionLine.motorIds

/-- All seven parallel sequences of a log entry have length `n`. -/
def LogEntry.uniformLen (e : LogEntry) (n : Nat) : Prop :=
  e.cycle.length = n ∧ e.speed.length = n ∧ e.temperature.length = n ∧
  e.efficiency.length = n ∧ e.current.length = n ∧ e.torque.length = n ∧
  e.reference.length = n

/-- Decimal value of a digit string, most significant first
(left inverse of `natDigits`, used to prove identity strings distinct). -/
def unDigits (l : List Char) : Nat :=
  l.foldl (fun a c => a * 10 + (c.toNat - 48)) 0

/-- Shape of a log cell after `n` cycles: absent while `n = 0`, otherwise an
entry whose seven lists all have length `n`. -/
def MotorLogs.lenState (logs : MotorLogs) (id : String) (n : Nat) : Prop :=
  (logs id = none ∧ n = 0) ∨ ∃ e, logs id = some e ∧ e.uniformLen n

/-! ## Basic lemmas -/

theorem npClip_le_right (x lo hi : ℚ) : npClip x lo hi ≤ hi :=
  min_le_right _ _

theorem le_npClip (x lo hi : ℚ) (h : lo ≤ hi) : lo ≤ npClip x lo hi :=
  le_min (le_max_right _ _) h

theorem DCMotor.control_signal_bounds (m : DCMotor) (t : ℚ) :
    0 ≤ (m.control t).1 ∧ (m.control t).1 ≤ 1 :=
  ⟨le_npClip _ _ _ (by norm_num), npClip_le_right _ _ _⟩

theorem DCMotor.control_snd_speed (m : DCMotor) (t : ℚ) :
    (m.control t).2.speed = m.speed := rfl

/-! ## Claim theorems (part 1) -/

/-- C1: for every hash function, motor identity, cycle and positive
interval, the reference generator returns
`base + 100 * ((cycle / interval) % 4)` where
`base = |hash id| % 200 + 1000 ∈ [1000, 1200)`; it is a pure function, so
two calls with identical arguments return identical results. -/
theorem get_speed_reference_formula (hash : String → Int) (cycle : Nat)
    (motor_id : String) (cycle_interval : Nat) (hpos : 0 < cycle_interval) :
    1000 ≤ (hash motor_id).natAbs % 200 + 1000 ∧
    (hash motor_id).natAbs % 200 + 1000 < 1200 ∧
    get_speed_reference hash cycle motor_id cycle_interval =
      ((hash motor_id).natAbs % 200 + 1000) + 100 * (cycle / cycle_interval % 4) ∧
    get_speed_reference hash cycle motor_id cycle_interval =
      get_speed_reference hash cycle motor_id cycle_interval := by
  refine ⟨by omega, by omega, ?_, rfl⟩
  have h4 : cycle / cycle_interval % 4 = 0 ∨ cycle / cycle_interval % 4 = 1 ∨
      cycle / cycle_interval % 4 = 2 ∨ cycle / cycle_interval % 4 = 3 :=
    by omega
  rcases h4 with h | h | h | h <;> simp [get_speed_reference, h]

/-- C1 witness: the theorem applied at a concrete hash, identity, cycle and
interval. -/
theorem get_speed_reference_formula_inst :
    1000 ≤ ((fun _ : String => (7 : Int)) "A").natAbs % 200 + 1000 ∧
    ((fun _ : String => (7 : Int)) "A").natAbs % 200 + 1000 < 1200 ∧
    get_speed_reference (fun _ => 7) 120 "A" 50 =
      (((fun _ : String => (7 : Int)) "A").natAbs % 200 + 1000) + 100 * (120 / 50 % 4) ∧
    get_speed_reference (fun _ => 7) 120 "A" 50 =
      get_speed_reference (fun _ => 7) 120 "A" 50 :=
  get_speed_reference_formula (fun _ => 7) 120 "A" 50 (by norm_num)

/-- C9: with `cycle = 0` and a positive interval the reference generator is
well-defined and selects level index 0, i.e. returns the motor's base value. -/
theorem get_speed_reference_cycle_zero (hash : String → Int) (motor_id : String)
    (cycle_interval : Nat) (hpos : 0 < cycle_interval) :
    get_speed_reference hash 0 motor_id cycle_interval =
      (hash motor_id).natAbs % 200 + 1000 := by
  simp [get_speed_reference, Nat.zero_div]

/-- C9 witness: the theorem applied at a concrete hash, identity and
interval. -/
theorem get_speed_reference_cycle_zero_inst :
    get_speed_reference (fun _ => -3) 0 "Line_1_M0_DC" 50 =
      ((fun _ : String => (-3 : Int)) "Line_1_M0_DC").natAbs % 200 + 1000 :=
  get_speed_reference_cycle_zero (fun _ => -3) "Line_1_M0_DC" 50 (by norm_num)

/-- C2: one DC plant update sets `speed' = speed + (s*480*3.125 - speed)/10`,
`current' = s*10`, `torque' = current'*0.5`,
`operating_hours' = operating_hours + 1` (temperature and efficiency follow
the jitter rules); one AC plant update, applied to the state the AC
controller just produced, is driven by the controller's emitted frequency:
`speed' = speed + (frequency*30 - speed)/10`, `current' = frequency/60*10`,
with the same torque and operating-hours relations. -/
theorem plant_update_dynamics (m : DCMotor) (s jt je : ℚ)
    (a : ACMotor) (t s2 jt2 je2 : ℚ) :
    ((m.update_motor s jt je).speed = m.speed + (s * 480 * 3.125 - m.speed) / 10 ∧
     (m.update_motor s jt je).current = s * 10 ∧
     (m.update_motor s jt je).torque = (m.update_motor s jt je).current * 0.5 ∧
     (m.update_motor s jt je).operating_hours = m.operating_hours + 1 ∧
     (m.update_motor s jt je).temperature = m.temperature + (s * 0.1 + jt) ∧
     (m.update_motor s jt je).efficiency = m.efficiency - je) ∧
    (((a.control t).2.update_motor s2 jt2 je2).speed =
       (a.control t).2.speed + ((a.control t).2.frequency * 30 - (a.control t).2.speed) / 10 ∧
     ((a.control t).2.update_motor s2 jt2 je2).current = (a.control t).2.frequency / 60 * 10 ∧
     ((a.control t).2.update_motor s2 jt2 je2).torque =
       ((a.control t).2.update_motor s2 jt2 je2).current * 0.5 ∧
     ((a.control t).2.update_motor s2 jt2 je2).operating_hours =
       (a.control t).2.operating_hours + 1 ∧
     ((a.control t).2.update_motor s2 jt2 je2).temperature =
       (a.control t).2.temperature + ((a.control t).2.frequency / 60 * 0.1 + jt2) ∧
     ((a.control t).2.update_motor s2 jt2 je2).efficiency =
       (a.control t).2.efficiency - je2) :=
  ⟨⟨rfl, rfl, rfl, rfl, rfl, rfl⟩, ⟨rfl, rfl, rfl, rfl, rfl, rfl⟩⟩

/-- C3: for every controller state and target speed, the DC control signal
lies in `[0, 1]`, and the AC clamped frequency lies in `[40, 60]` with the
returned signal equal to `frequency / 60`; both controllers are total
functions (no error path exists in the embedding). -/
theorem controller_output_in_range (m : DCMotor) (a : ACMotor) (tdc tac : ℚ) :
    (0 ≤ (m.control tdc).1 ∧ (m.control tdc).1 ≤ 1) ∧
    (40 ≤ (a.control tac).2.frequency ∧ (a.control tac).2.frequency ≤ 60 ∧
     (a.control tac).1 = (a.control tac).2.frequency / 60) :=
  ⟨DCMotor.control_signal_bounds m tdc,
   le_npClip _ _ _ (by norm_num), npClip_le_right _ _ _, rfl⟩

/-- C7 counterexample: the claim that `control` mutates only the integral
accumulator is false — `DCMotor.control` also writes the motor's voltage.
On a fresh DC motor with target speed 100 the voltage changes from 0 to 480. -/
theorem dc_control_mutates_voltage :
    ((DCMotor.init "M1").control 100).2.voltage ≠ (DCMotor.init "M1").voltage := by
  have hs : ((DCMotor.init "M1").control 100).2.voltage = 480 := by
    simp only [DCMotor.control, DCMotor.init, npClip, min_def, max_def]
    norm_num
  rw [hs]
  norm_num [DCMotor.init]

/-- C7 amended: `control` mutates the integral accumulator and, in addition,
DC control writes the motor's voltage (to `signal * 480`) and AC control
writes the frequency (to the clamped new frequency); every other component
of the motor state is unchanged. -/
theorem control_frame_effects (m : DCMotor) (a : ACMotor) (tdc tac : ℚ) :
    ((m.control tdc).2.motor_id = m.motor_id ∧
     (m.control tdc).2.current = m.current ∧
     (m.control tdc).2.speed = m.speed ∧
     (m.control tdc).2.torque = m.torque ∧
     (m.control tdc).2.efficiency = m.efficiency ∧
     (m.control tdc).2.temperature = m.temperature ∧
     (m.control tdc).2.operating_hours = m.operating_hours ∧
     (m.control tdc).2.controller_gain = m.controller_gain ∧
     (m.control tdc).2.integral_gain = m.integral_gain ∧
     (m.control tdc).2.integral_error = m.integral_error + (tdc - m.speed) ∧
     (m.control tdc).2.voltage = (m.control tdc).1 * 480) ∧
    ((a.control tac).2.motor_id = a.motor_id ∧
     (a.control tac).2.voltage = a.voltage ∧
     (a.control tac).2.current = a.current ∧
     (a.control tac).2.speed = a.speed ∧
     (a.control tac).2.torque = a.torque ∧
     (a.control tac).2.efficiency = a.efficiency ∧
     (a.control tac).2.temperature = a.temperature ∧
     (a.control tac).2.operating_hours = a.operating_hours ∧
     (a.control tac).2.base_frequency = a.base_frequency ∧
     (a.control tac).2.controller_gain = a.controller_gain ∧
     (a.control tac).2.integral_gain = a.integral_gain ∧
     (a.control tac).2.integral_error = a.integral_error + (tac - a.speed) ∧
     (a.control tac).2.frequency =
       npClip (a.base_frequency + a.controller_gain * (tac - a.speed)
         + a.integral_gain * (a.integral_error + (tac - a.speed))) 40 60) :=
  ⟨⟨rfl, rfl, rfl, rfl, rfl, rfl, rfl, rfl, rfl, rfl, rfl⟩,
   ⟨rfl, rfl, rfl, rfl, rfl, rfl, rfl, rfl, rfl, rfl, rfl, rfl, rfl⟩⟩

theorem run_empty_factory (hash : String → Int) (tj ej : String → Nat → ℚ)
    (nm : String) (logs : MotorLogs) (n : Nat) :
    Factory.run hash tj ej ⟨nm, []⟩ logs n = (⟨nm, []⟩, logs) := by
  induction n with
  | zero => rfl
  | succ n ih => simp only [Factory.run, ih, Factory.step, updateLineList]

/-- C8 counterexample: the claim that invalid configurations fail fast with
a configuration error is false — construction performs no validation.  With
zero (or negative) line counts construction succeeds and returns an ordinary
factory with no production lines, and the driver loop runs over it without
error, producing an empty log. -/
theorem factory_invalid_config_constructs :
    (Factory.init "F" 0 2).production_lines = [] ∧
    (Factory.init "F" (-1) (-2)).production_lines = [] ∧
    (Factory.runTotal (fun _ => 0) (fun _ _ => 0) (fun _ _ => 0)
      (Factory.init "F" 0 2) 101).2 "Line_1_M0_DC" = none := by
  refine ⟨rfl, rfl, ?_⟩
  show (Factory.run (fun _ => 0) (fun _ _ => 0) (fun _ _ => 0)
    (Factory.init "F" 0 2) MotorLogs.empty ((101 : Int)).toNat).2 "Line_1_M0_DC" = none
  rw [show ((101 : Int)).toNat = 101 from rfl,
    show Factory.init "F" 0 2 = (⟨"F", []⟩ : Factory) from rfl,
    run_empty_factory]
  rfl

/-- C8 amended: construction never fails: a nonpositive number of production
lines yields a factory with no lines, a nonpositive number of machines per
line yields lines with no machines, and a nonpositive total cycle count makes
the driver loop run zero cycles, leaving the factory and the empty log
unchanged. -/
theorem factory_config_no_validation (name : String) (L M total : Int)
    (hash : String → Int) (tj ej : String → Nat → ℚ) :
    (L ≤ 0 → (Factory.init name L M).production_lines = []) ∧
    (M ≤ 0 → ∀ pl ∈ (Factory.init name L M).production_lines, pl.machines = []) ∧
    (total ≤ 0 →
      Factory.runTotal hash tj ej (Factory.init name L M) total =
        (Factory.init name L M, MotorLogs.empty)) := by
  refine ⟨fun hL => ?_, fun hM pl hpl => ?_, fun ht => ?_⟩
  · simp [Factory.init, Int.toNat_of_nonpos hL]
  · simp only [Factory.init, List.mem_map] at hpl
    obtain ⟨i, -, rfl⟩ := hpl
    simp [ProductionLine.init, Int.toNat_of_nonpos hM]
  · simp [Factory.runTotal, Int.toNat_of_nonpos ht, Factory.run]

/-- C8 amended witness: the amended theorem applied at the zero/negative
configuration `(0, -2, -1)`. -/
theorem factory_config_no_validation_inst :
    (Factory.init "F" 0 (-2)).production_lines = [] ∧
    (∀ pl ∈ (Factory.init "F" 0 (-2)).production_lines, pl.machines = []) ∧
    Factory.runTotal (fun _ => 0) (fun _ _ => 0) (fun _ _ => 0)
        (Factory.init "F" 0 (-2)) (-1) =
      (Factory.init "F" 0 (-2), MotorLogs.empty) :=
  ⟨(factory_config_no_validation "F" 0 (-2) (-1) (fun _ => 0) (fun _ _ => 0)
      (fun _ _ => 0)).1 (by norm_num),
   (factory_config_no_validation "F" 0 (-2) (-1) (fun _ => 0) (fun _ _ => 0)
      (fun _ _ => 0)).2.1 (by norm_num),
   (factory_config_no_validation "F" 0 (-2) (-1) (fun _ => 0) (fun _ _ => 0)
      (fun _ _ => 0)).2.2 (by norm_num)⟩

/-- C4: efficiency never increases across update steps, for DC and AC
motors alike, because the per-step efficiency decrement is a nonnegative
draw from `uniform(0, 0.001)`. -/
theorem efficiency_nonincreasing (m : DCMotor) (a : ACMotor)
    (sig tj ej sig2 tj2 ej2 : Nat → ℚ)
    (hej : ∀ k, 0 ≤ ej k ∧ ej k ≤ 0.001)
    (hej2 : ∀ k, 0 ≤ ej2 k ∧ ej2 k ≤ 0.001) (t : Nat) :
    (m.updateRun sig tj ej (t + 1)).efficiency ≤
      (m.updateRun sig tj ej t).efficiency ∧
    (a.updateRun sig2 tj2 ej2 (t + 1)).efficiency ≤
      (a.updateRun sig2 tj2 ej2 t).efficiency := by
  constructor
  · have h := (hej t).1
    simp only [DCMotor.updateRun, DCMotor.update_motor]
    linarith
  · have h := (hej2 t).1
    simp only [ACMotor.updateRun, ACMotor.update_motor]
    linarith

/-- C4 witness: the theorem applied to fresh motors with zero jitter streams
at step 0. -/
theorem efficiency_nonincreasing_inst :
    ((DCMotor.init "D1").updateRun (fun _ => 0) (fun _ => 0) (fun _ => 0)
        1).efficiency ≤
      ((DCMotor.init "D1").updateRun (fun _ => 0) (fun _ => 0) (fun _ => 0)
        0).efficiency ∧
    ((ACMotor.init "A1").updateRun (fun _ => 0) (fun _ => 0) (fun _ => 0)
        1).efficiency ≤
      ((ACMotor.init "A1").updateRun (fun _ => 0) (fun _ => 0) (fun _ => 0)
        0).efficiency :=
  efficiency_nonincreasing (DCMotor.init "D1") (ACMotor.init "A1")
    (fun _ => 0) (fun _ => 0) (fun _ => 0) (fun _ => 0) (fun _ => 0) (fun _ => 0)
    (fun _ => ⟨by norm_num, by norm_num⟩) (fun _ => ⟨by norm_num, by norm_num⟩) 0

/-- C10: starting from a freshly constructed DC motor (speed 0), the speed
stays in `[0, 1500]` after every control-then-update cycle, for any target
and jitter streams: the clipped signal lies in `[0, 1]` and the update is a
convex combination `speed + (signal*1500 - speed)/10`. -/
theorem dc_speed_in_range (motor_id : String) (targets tj ej : Nat → ℚ)
    (n : Nat) :
    0 ≤ ((DCMotor.init motor_id).cycleRun targets tj ej n).speed ∧
    ((DCMotor.init motor_id).cycleRun targets tj ej n).speed ≤ 1500 := by
  induction n with
  | zero =>
    simp [DCMotor.cycleRun, DCMotor.init]
  | succ n ih =>
    obtain ⟨h0, h1⟩ := ih
    obtain ⟨hs0, hs1⟩ := DCMotor.control_signal_bounds
      ((DCMotor.init motor_id).cycleRun targets tj ej n) (targets n)
    simp only [DCMotor.cycleRun, DCMotor.update_motor, DCMotor.control_snd_speed]
    constructor <;> linarith

/-! ## Log-shape lemmas for the factory run -/

theorem LogEntry.uniformLen_empty : LogEntry.empty.uniformLen 0 := by
  simp [LogEntry.empty, LogEntry.uniformLen]

theorem DCMotor.update_motor_keeps_dc_id (m : DCMotor) (s jt je : ℚ) :
    (m.update_motor s jt je).motor_id = m.motor_id := rfl

theorem DCMotor.control_keeps_dc_id (m : DCMotor) (t : ℚ) :
    (m.control t).2.motor_id = m.motor_id := rfl

theorem ACMotor.update_motor_keeps_ac_id (m : ACMotor) (s jt je : ℚ) :
    (m.update_motor s jt je).motor_id = m.motor_id := rfl

theorem ACMotor.control_keeps_ac_id (m : ACMotor) (t : ℚ) :
    (m.control t).2.motor_id = m.motor_id := rfl

theorem Machine.update_machines_ids (hash : String → Int) (tj ej : String → Nat → ℚ)
    (m : Machine) (cycle : Nat) (logs : MotorLogs) :
    ((m.update_machines hash tj ej cycle logs).1).motorIds = m.motorIds := rfl

theorem Machine.mem_motorIds {id : String} {m : Machine} :
    id ∈ m.motorIds ↔ id = m.dc_motor.motor_id ∨ id = m.ac_motor.motor_id := by
  simp [Machine.motorIds]

theorem Machine.update_machines_log_ne (hash : String → Int)
    (tj ej : String → Nat → ℚ) (m : Machine) (cycle : Nat) (logs : MotorLogs)
    (id : String) (hdc : id ≠ m.dc_motor.motor_id) (hac : id ≠ m.ac_motor.motor_id) :
    (m.update_machines hash tj ej cycle logs).2 id = logs id := by
  simp [Machine.update_machines, MotorLogs.initIfAbsent, MotorLogs.modifyAtKey,
    DCMotor.update_motor_keeps_dc_id, DCMotor.control_keeps_dc_id, ACMotor.update_motor_keeps_ac_id,
    ACMotor.control_keeps_ac_id, hdc, hac]

theorem Machine.update_machines_log_mem (hash : String → Int)
    (tj ej : String → Nat → ℚ) (m : Machine) (cycle : Nat) (logs : MotorLogs)
    (n : Nat) (hne : m.dc_motor.motor_id ≠ m.ac_motor.motor_id)
    (id : String) (hid : id ∈ m.motorIds) (h : logs.lenState id n) :
    ∃ e, (m.update_machines hash tj ej cycle logs).2 id = some e ∧
      e.uniformLen (n + 1) := by
  rcases Machine.mem_motorIds.mp hid with rfl | rfl
  · rcases h with ⟨hnone, rfl⟩ | ⟨e, he, hlen⟩
    · simp [Machine.update_machines, MotorLogs.initIfAbsent, MotorLogs.modifyAtKey,
        DCMotor.update_motor_keeps_dc_id, DCMotor.control_keeps_dc_id, ACMotor.update_motor_keeps_ac_id,
        ACMotor.control_keeps_ac_id, hne, hnone]
      simp [LogEntry.uniformLen, LogEntry.empty]
    · obtain ⟨h1, h2, h3, h4, h5, h6, h7⟩ := hlen
      simp [Machine.update_machines, MotorLogs.initIfAbsent, MotorLogs.modifyAtKey,
        DCMotor.update_motor_keeps_dc_id, DCMotor.control_keeps_dc_id, ACMotor.update_motor_keeps_ac_id,
        ACMotor.control_keeps_ac_id, hne, he]
      simp [LogEntry.uniformLen, h1, h2, h3, h4, h5, h6, h7]
  · rcases h with ⟨hnone, rfl⟩ | ⟨e, he, hlen⟩
    · simp [Machine.update_machines, MotorLogs.initIfAbsent, MotorLogs.modifyAtKey,
        DCMotor.update_motor_keeps_dc_id, DCMotor.control_keeps_dc_id, ACMotor.update_motor_keeps_ac_id,
        ACMotor.control_keeps_ac_id, Ne.symm hne, hnone]
      simp [LogEntry.uniformLen, LogEntry.empty]
    · obtain ⟨h1, h2, h3, h4, h5, h6, h7⟩ := hlen
      simp [Machine.update_machines, MotorLogs.initIfAbsent, MotorLogs.modifyAtKey,
        DCMotor.update_motor_keeps_dc_id, DCMotor.control_keeps_dc_id, ACMotor.update_motor_keeps_ac_id,
        ACMotor.control_keeps_ac_id, Ne.symm hne, he]
      simp [LogEntry.uniformLen, h1, h2, h3, h4, h5, h6, h7]

theorem updateMachineList_ids (hash : String → Int) (tj ej : String → Nat → ℚ)
    (cycle : Nat) (ms : List Machine) : ∀ logs : MotorLogs,
    ((updateMachineList hash tj ej cycle ms logs).1).flatMap Machine.motorIds =
      ms.flatMap Machine.motorIds := by
  induction ms with
  | nil => intro logs; rfl
  | cons m ms ih =>
    intro logs
    simp only [updateMachineList, List.flatMap_cons, ih,
      Machine.update_machines_ids]

theorem updateMachineList_log_spec (hash : String → Int)
    (tj ej : String → Nat → ℚ) (cycle : Nat) (n : Nat) (ms : List Machine) :
    ∀ logs : MotorLogs,
      (ms.flatMap Machine.motorIds).Nodup →
      (∀ id ∈ ms.flatMap Machine.motorIds, logs.lenState id n) →
      (∀ id, id ∉ ms.flatMap Machine.motorIds →
        (updateMachineList hash tj ej cycle ms logs).2 id = logs id) ∧
      (∀ id ∈ ms.flatMap Machine.motorIds,
        ∃ e, (updateMachineList hash tj ej cycle ms logs).2 id = some e ∧
          e.uniformLen (n + 1)) := by
  induction ms with
  | nil =>
    intro logs _ _
    exact ⟨fun id _ => rfl, fun id h => absurd h (by simp)⟩
  | cons m ms ih =>
    intro logs hnd hstate
    rw [List.flatMap_cons] at hnd
    rw [List.nodup_append] at hnd
    obtain ⟨hA, hB, hdisj⟩ := hnd
    have hne : m.dc_motor.motor_id ≠ m.ac_motor.motor_id := by
      simpa [Machine.motorIds] using hA
    set logsA := (m.update_machines hash tj ej cycle logs).2 with hlogsA
    have hframeA : ∀ id, id ∉ m.motorIds → logsA id = logs id := by
      intro id hid
      apply Machine.update_machines_log_ne
      · exact fun hc => hid (Machine.mem_motorIds.mpr (Or.inl hc))
      · exact fun hc => hid (Machine.mem_motorIds.mpr (Or.inr hc))
    have hgrowA : ∀ id ∈ m.motorIds,
        ∃ e, logsA id = some e ∧ e.uniformLen (n + 1) := by
      intro id hid
      exact Machine.update_machines_log_mem hash tj ej m cycle logs n hne id hid
        (hstate id (by simp [List.flatMap_cons, hid]))
    have hstateA : ∀ id ∈ ms.flatMap Machine.motorIds, logsA.lenState id n := by
      intro id hid
      have hnotA : id ∉ m.motorIds := fun hc => hdisj hc hid
      rw [MotorLogs.lenState, hframeA id hnotA]
      exact hstate id (by simp [List.flatMap_cons, hid])
    obtain ⟨ihframe, ihgrow⟩ := ih logsA hB hstateA
    refine ⟨?_, ?_⟩
    · intro id hid
      rw [List.flatMap_cons, List.mem_append] at hid
      push_neg at hid
      obtain ⟨h1, h2⟩ := hid
      simp only [updateMachineList]
      rw [← hlogsA, ihframe id h2]
      exact hframeA id h1
    · intro id hid
      rw [List.flatMap_cons, List.mem_append] at hid
      simp only [updateMachineList]
      rw [← hlogsA]
      rcases hid with h1 | h2
      · have h2 : id ∉ ms.flatMap Machine.motorIds := fun hc => hdisj h1 hc
        rw [ihframe id h2]
        exact hgrowA id h1
      · exact ihgrow id h2

theorem ProductionLine.update_ids (hash : String → Int) (tj ej : String → Nat → ℚ)
    (pl : ProductionLine) (cycle : Nat) (logs : MotorLogs) :
    ((pl.update_production_line hash tj ej cycle logs).1).motorIds = pl.motorIds := by
  simp only [ProductionLine.update_production_line, ProductionLine.motorIds]
  exact updateMachineList_ids hash tj ej cycle pl.machines logs

theorem ProductionLine.update_log_spec (hash : String → Int)
    (tj ej : String → Nat → ℚ) (pl : ProductionLine) (cycle : Nat)
    (logs : MotorLogs) (n : Nat) (hnd : pl.motorIds.Nodup)
    (hstate : ∀ id ∈ pl.motorIds, logs.lenState id n) :
    (∀ id, id ∉ pl.motorIds →
      (pl.update_production_line hash tj ej cycle logs).2 id = logs id) ∧
    (∀ id ∈ pl.motorIds,
      ∃ e, (pl.update_production_line hash tj ej cycle logs).2 id = some e ∧
        e.uniformLen (n + 1)) := by
  have h := updateMachineList_log_spec hash tj ej cycle n pl.machines logs hnd hstate
  simpa [ProductionLine.update_production_line, ProductionLine.motorIds] using h

theorem updateLineList_ids (hash : String → Int) (tj ej : String → Nat → ℚ)
    (cycle : Nat) (pls : List ProductionLine) : ∀ logs : MotorLogs,
    ((updateLineList hash tj ej cycle pls logs).1).flatMap ProductionLine.motorIds =
      pls.flatMap ProductionLine.motorIds := by
  induction pls with
  | nil => intro logs; rfl
  | cons pl pls ih =>
    intro logs
    simp only [updateLineList, List.flatMap_cons, ih, ProductionLine.update_ids]

theorem updateLineList_log_spec (hash : String → Int)
    (tj ej : String → Nat → ℚ) (cycle : Nat) (n : Nat)
    (pls : List ProductionLine) : ∀ logs : MotorLogs,
      (pls.flatMap ProductionLine.motorIds).Nodup →
      (∀ id ∈ pls.flatMap ProductionLine.motorIds, logs.lenState id n) →
      (∀ id, id ∉ pls.flatMap ProductionLine.motorIds →
        (updateLineList hash tj ej cycle pls logs).2 id = logs id) ∧
      (∀ id ∈ pls.flatMap ProductionLine.motorIds,
        ∃ e, (updateLineList hash tj ej cycle pls logs).2 id = some e ∧
          e.uniformLen (n + 1)) := by
  induction pls with
  | nil =>
    intro logs _ _
    exact ⟨fun id _ => rfl, fun id h => absurd h (by simp)⟩
  | cons pl pls ih =>
    intro logs hnd hstate
    rw [List.flatMap_cons, List.nodup_append] at hnd
    obtain ⟨hA, hB, hdisj⟩ := hnd
    obtain ⟨hframeA, hgrowA⟩ := ProductionLine.update_log_spec hash tj ej pl cycle
      logs n hA (fun id hid => hstate id (by simp [List.flatMap_cons, hid]))
    have hstateA : ∀ id ∈ pls.flatMap ProductionLine.motorIds,
        ((pl.update_production_line hash tj ej cycle logs).2).lenState id n := by
      intro id hid
      have hnotA : id ∉ pl.motorIds := fun hc => hdisj hc hid
      rw [MotorLogs.lenState, hframeA id hnotA]
      exact hstate id (by simp [List.flatMap_cons, hid])
    obtain ⟨ihframe, ihgrow⟩ :=
      ih ((pl.update_production_line hash tj ej cycle logs).2) hB hstateA
    refine ⟨?_, ?_⟩
    · intro id hid
      rw [List.flatMap_cons, List.mem_append] at hid
      push_neg at hid
      obtain ⟨h1, h2⟩ := hid
      simp only [updateLineList]
      rw [ihframe id h2]
      exact hframeA id h1
    · intro id hid
      rw [List.flatMap_cons, List.mem_append] at hid
      simp only [updateLineList]
      rcases hid with h1 | h2
      · have h2 : id ∉ pls.flatMap ProductionLine.motorIds := fun hc => hdisj h1 hc
        rw [ihframe id h2]
        exact hgrowA id h1
      · exact ihgrow id h2

theorem Factory.step_ids (hash : String → Int) (tj ej : String → Nat → ℚ)
    (f : Factory) (cycle : Nat) (logs : MotorLogs) :
    ((Factory.step hash tj ej f cycle logs).1).motorIds = f.motorIds := by
  simp only [Factory.step, Factory.motorIds]
  exact updateLineList_ids hash tj ej cycle f.production_lines logs

theorem Factory.step_log_spec (hash : String → Int) (tj ej : String → Nat → ℚ)
    (f : Factory) (cycle : Nat) (logs : MotorLogs) (n : Nat)
    (hnd : f.motorIds.Nodup) (hstate : ∀ id ∈ f.motorIds, logs.lenState id n) :
    (∀ id, id ∉ f.motorIds →
      (Factory.step hash tj ej f cycle logs).2 id = logs id) ∧
    (∀ id ∈ f.motorIds,
      ∃ e, (Factory.step hash tj ej f cycle logs).2 id = some e ∧
        e.uniformLen (n + 1)) := by
  have h := updateLineList_log_spec hash tj ej cycle n f.production_lines logs hnd hstate
  simpa [Factory.step, Factory.motorIds] using h

theorem Factory.run_log_spec (hash : String → Int) (tj ej : String → Nat → ℚ)
    (f : Factory) (hnd : f.motorIds.Nodup) : ∀ n : Nat,
    ((Factory.run hash tj ej f MotorLogs.empty n).1).motorIds = f.motorIds ∧
    (∀ id, id ∉ f.motorIds →
      (Factory.run hash tj ej f MotorLogs.empty n).2 id = none) ∧
    (∀ id ∈ f.motorIds,
      (n = 0 → (Factory.run hash tj ej f MotorLogs.empty n).2 id = none) ∧
      (n ≠ 0 → ∃ e, (Factory.run hash tj ej f MotorLogs.empty n).2 id = some e ∧
        e.uniformLen n)) := by
  intro n
  induction n with
  | zero =>
    exact ⟨rfl, fun id _ => rfl, fun id _ => ⟨fun _ => rfl, fun h => absurd rfl h⟩⟩
  | succ n ih =>
    obtain ⟨hids, hout, hin⟩ := ih
    have hstate : ∀ id ∈ ((Factory.run hash tj ej f MotorLogs.empty n).1).motorIds,
        ((Factory.run hash tj ej f MotorLogs.empty n).2).lenState id n := by
      rw [hids]
      intro id hid
      obtain ⟨h0, h1⟩ := hin id hid
      cases n with
      | zero => exact Or.inl ⟨h0 rfl, rfl⟩
      | succ k =>
        obtain ⟨e, he, hl⟩ := h1 (Nat.succ_ne_zero k)
        exact Or.inr ⟨e, he, hl⟩
    have hndp : ((Factory.run hash tj ej f MotorLogs.empty n).1).motorIds.Nodup := by
      rw [hids]; exact hnd
    obtain ⟨hframe, hgrow⟩ := Factory.step_log_spec hash tj ej
      (Factory.run hash tj ej f MotorLogs.empty n).1 (n + 1)
      (Factory.run hash tj ej f MotorLogs.empty n).2 n hndp hstate
    refine ⟨?_, ?_, ?_⟩
    · simp only [Factory.run]
      rw [Factory.step_ids, hids]
    · intro id hid
      simp only [Factory.run]
      rw [hframe id (by rw [hids]; exact hid)]
      exact hout id hid
    · intro id hid
      refine ⟨fun h => absurd h (Nat.succ_ne_zero n), fun _ => ?_⟩
      simp only [Factory.run]
      exact hgrow id (by rw [hids]; exact hid)

/-! ## Distinctness of the generated motor identities -/

theorem natStr_data (n : Nat) : (natStr n).data = natDigits n := rfl

theorem natDigits_isDigit (n : Nat) : ∀ c ∈ natDigits n, c.isDigit = true := by
  induction n using Nat.strong_induction_on with
  | _ n ih =>
    have hd : ∀ m, m < 10 → (Nat.digitChar m).isDigit = true := by decide
    rw [natDigits]
    by_cases h : n < 10
    · rw [dif_pos h]
      intro c hc
      rw [List.mem_singleton] at hc
      subst hc
      exact hd n h
    · rw [dif_neg h]
      intro c hc
      rcases List.mem_append.mp hc with h1 | h2
      · exact ih (n / 10) (Nat.div_lt_self (by omega) (by omega)) c h1
      · rw [List.mem_singleton] at h2
        subst h2
        exact hd (n % 10) (Nat.mod_lt _ (by omega))

theorem unDigits_natDigits (n : Nat) : unDigits (natDigits n) = n := by
  induction n using Nat.strong_induction_on with
  | _ n ih =>
    have hv : ∀ m, m < 10 → (Nat.digitChar m).toNat - 48 = m := by decide
    rw [natDigits]
    by_cases h : n < 10
    · rw [dif_pos h]
      have := hv n h
      simp [unDigits]
      omega
    · rw [dif_neg h]
      have h1 : unDigits (natDigits (n / 10) ++ [Nat.digitChar (n % 10)]) =
          unDigits (natDigits (n / 10)) * 10 + ((Nat.digitChar (n % 10)).toNat - 48) := by
        simp [unDigits, List.foldl_append]
      rw [h1, ih (n / 10) (Nat.div_lt_self (by omega) (by omega)),
        hv (n % 10) (Nat.mod_lt _ (by omega))]
      omega

theorem natStr_inj {a b : Nat} (h : natStr a = natStr b) : a = b := by
  have hdata : natDigits a = natDigits b := congrArg String.data h
  have h2 := congrArg unDigits hdata
  rwa [unDigits_natDigits, unDigits_natDigits] at h2

theorem digits_sep_inj : ∀ s1 s2 r1 r2 : List Char,
    (∀ c ∈ s1, c.isDigit = true) → (∀ c ∈ s2, c.isDigit = true) →
    s1 ++ '_' :: r1 = s2 ++ '_' :: r2 → s1 = s2 ∧ r1 = r2 := by
  intro s1
  induction s1 with
  | nil =>
    intro s2 r1 r2 _ h2 heq
    cases s2 with
    | nil => simpa using heq
    | cons c s2 =>
      exfalso
      injection heq with hc _
      have hdig := h2 c (by simp)
      rw [← hc] at hdig
      exact absurd hdig (by decide)
  | cons c s1 ih =>
    intro s2 r1 r2 h1 h2 heq
    cases s2 with
    | nil =>
      exfalso
      injection heq with hc _
      have hdig := h1 c (by simp)
      rw [hc] at hdig
      exact absurd hdig (by decide)
    | cons d s2 =>
      injection heq with hcd htail
      obtain ⟨e1, e2⟩ := ih s2 r1 r2 (fun x hx => h1 x (by simp [hx]))
        (fun x hx => h2 x (by simp [hx])) htail
      exact ⟨by rw [hcd, e1], e2⟩

theorem motor_id_inj (i1 j1 i2 j2 : Nat) (x y : Char)
    (heq : "Line_" ++ natStr i1 ++ "_M" ++ natStr j1 ++ String.mk ['_', x, 'C'] =
           "Line_" ++ natStr i2 ++ "_M" ++ natStr j2 ++ String.mk ['_', y, 'C']) :
    i1 = i2 ∧ j1 = j2 ∧ x = y := by
  have hd := congrArg String.data heq
  simp only [String.data_append, natStr_data,
    show ("Line_" : String).data = ['L', 'i', 'n', 'e', '_'] from rfl,
    show ("_M" : String).data = ['_', 'M'] from rfl,
    show (String.mk ['_', x, 'C']).data = ['_', x, 'C'] from rfl,
    show (String.mk ['_', y, 'C']).data = ['_', y, 'C'] from rfl,
    List.append_assoc, List.cons_append, List.nil_append] at hd
  simp only [List.cons.injEq, true_and] at hd
  obtain ⟨hA, hB⟩ := digits_sep_inj (natDigits i1) (natDigits i2) _ _
    (natDigits_isDigit i1) (natDigits_isDigit i2) hd
  injection hB with _ hB2
  obtain ⟨hC, hD⟩ := digits_sep_inj (natDigits j1) (natDigits j2) _ _
    (natDigits_isDigit j1) (natDigits_isDigit j2) hB2
  injection hD with hxy _
  refine ⟨?_, ?_, hxy⟩
  · have h2 := congrArg unDigits hA
    rwa [unDigits_natDigits, unDigits_natDigits] at h2
  · have h2 := congrArg unDigits hC
    rwa [unDigits_natDigits, unDigits_natDigits] at h2

theorem factory_motorIds_eq (name : String) (L M : Int) :
    (Factory.init name L M).motorIds =
      (List.range L.toNat).flatMap (fun i =>
        (List.range M.toNat).flatMap (fun j =>
          ["Line_" ++ natStr (i + 1) ++ "_M" ++ natStr j ++ "_DC",
           "Line_" ++ natStr (i + 1) ++ "_M" ++ natStr j ++ "_AC"])) := by
  simp [Factory.init, Factory.motorIds, ProductionLine.init, ProductionLine.motorIds,
    Machine.init, Machine.motorIds, DCMotor.init, ACMotor.init, List.flatMap_map]

theorem nodup_factory_motorIds (name : String) (L M : Int) :
    (Factory.init name L M).motorIds.Nodup := by
  rw [factory_motorIds_eq]
  refine List.nodup_flatMap.2 ⟨?_, ?_⟩
  · intro i _
    refine List.nodup_flatMap.2 ⟨?_, ?_⟩
    · intro j _
      simp only [List.nodup_cons, List.mem_singleton, List.nodup_singleton, and_true]
      refine ⟨fun hc => ?_, by simp, List.nodup_nil⟩
      obtain ⟨-, -, hxy⟩ := motor_id_inj (i + 1) j (i + 1) j 'D' 'A' hc
      exact absurd hxy (by decide)
    · refine (List.pairwise_lt_range _).imp ?_
      intro j1 j2 hlt a ha1 ha2
      simp only [List.mem_cons, List.mem_singleton, List.not_mem_nil, or_false] at ha1 ha2
      rcases ha1 with rfl | rfl <;> rcases ha2 with h | h <;>
      · obtain ⟨-, hj, -⟩ := motor_id_inj _ _ _ _ _ _ h
        omega
  · refine (List.pairwise_lt_range _).imp ?_
    intro i1 i2 hlt a ha1 ha2
    simp only [List.mem_flatMap, List.mem_range] at ha1 ha2
    obtain ⟨j1, -, hj1⟩ := ha1
    obtain ⟨j2, -, hj2⟩ := ha2
    simp only [List.mem_cons, List.mem_singleton, List.not_mem_nil, or_false] at hj1 hj2
    rcases hj1 with rfl | rfl <;> rcases hj2 with h | h <;>
    · obtain ⟨hi, -, -⟩ := motor_id_inj _ _ _ _ _ _ h
      omega

theorem length_flatMap_const {α : Type} (n c : Nat) (g : Nat → List α)
    (h : ∀ i, (g i).length = c) : ((List.range n).flatMap g).length = n * c := by
  rw [List.length_flatMap]
  have hmap : List.map (List.length ∘ g) (List.range n) =
      List.map (fun _ => c) (List.range n) := by
    simp only [Function.comp_def, h]
  rw [hmap, List.map_const', List.sum_replicate, List.length_range, smul_eq_mul]

theorem factory_motorIds_length (name : String) (L M : Int) :
    (Factory.init name L M).motorIds.length = 2 * L.toNat * M.toNat := by
  have h1 := length_flatMap_const L.toNat (M.toNat * 2) _
    (fun i => length_flatMap_const M.toNat 2
      (fun j => ["Line_" ++ natStr (i + 1) ++ "_M" ++ natStr j ++ "_DC",
        "Line_" ++ natStr (i + 1) ++ "_M" ++ natStr j ++ "_AC"]) (fun j => rfl))
  rw [factory_motorIds_eq, h1]
  ring

/-- C5: in a factory run in which each motor is stepped once per cycle
(`Factory.run` starting from the empty log), after `N` cycles every motor
identity present in the log has all seven parallel sequences (cycle, speed,
temperature, efficiency, current, torque, reference) of length exactly `N`. -/
theorem run_log_uniform_lengths (hash : String → Int) (tj ej : String → Nat → ℚ)
    (name : String) (L M : Int) (N : Nat) :
    ∀ id : String,
      ((Factory.run hash tj ej (Factory.init name L M) MotorLogs.empty N).2 id).elim
        True (fun e => e.uniformLen N) := by
  intro id
  have hnd := nodup_factory_motorIds name L M
  obtain ⟨hids, hout, hin⟩ := Factory.run_log_spec hash tj ej _ hnd N
  by_cases hmem : id ∈ (Factory.init name L M).motorIds
  · obtain ⟨h0, h1⟩ := hin id hmem
    cases N with
    | zero => rw [h0 rfl]; trivial
    | succ k =>
      obtain ⟨e, he, hl⟩ := h1 (Nat.succ_ne_zero k)
      rw [he]
      exact hl
  · rw [hout id hmem]
    trivial

/-- C6: for a factory constructed with `L` production lines and `M` machines
per line, after any number `N + 1 ≥ 1` of full simulation cycles the log
contains exactly `2 * L * M` distinct motor identities: the set of present
keys is the factory's motor-identity set, whose cardinality is `2 * L * M`
(one DC and one AC motor per machine, identities unique across the factory). -/
theorem run_log_distinct_ids (hash : String → Int) (tj ej : String → Nat → ℚ)
    (name : String) (L M : Nat) (N : Nat) :
    ((Factory.init name (L : Int) (M : Int)).motorIds.toFinset.card = 2 * L * M) ∧
    (∀ id : String,
      ((Factory.run hash tj ej (Factory.init name (L : Int) (M : Int))
          MotorLogs.empty (N + 1)).2 id).isSome = true ↔
        id ∈ (Factory.init name (L : Int) (M : Int)).motorIds.toFinset) := by
  have hnd := nodup_factory_motorIds name (L : Int) (M : Int)
  constructor
  · rw [List.toFinset_card_of_nodup hnd, factory_motorIds_length]
    simp
  · intro id
    obtain ⟨hids, hout, hin⟩ := Factory.run_log_spec hash tj ej _ hnd (N + 1)
    rw [List.mem_toFinset]
    constructor
    · intro h
      by_contra hmem
      rw [hout id hmem] at h
      simp at h
    · intro hmem
      obtain ⟨-, h1⟩ := hin id hmem
      obtain ⟨e, he, -⟩ := h1 (Nat.succ_ne_zero N)
      rw [he]
      rfl
